import Mathlib

/-!
# Verification of the external-calendar reconciliation engine

A shallow embedding, in Lean, of the reconciliation core of the
TPS-Calendar-Bases plugin:

* `src/external-calendar-service.ts` — iCal decode + recurrence expansion,
  stable-id generation, fetch cache;
* `src/services/auto-create-service.ts` — identity reconciliation
  (exact / fuzzy matching), cancellation and orphan handling, frontmatter
  updates, and the sync-cycle mutual-exclusion flag.

Modelling conventions:

* JS `Date` values are epoch milliseconds (`Int`); `ICAL.Time` values are
  modelled by their wall-clock components plus the absolute time
  (`toUnixTime()`, seconds) the library reports for them.  `ICAL.Time.compare`
  is modelled as comparison of those absolute times.
* Timezone resolution (`normalizeTime`) is kept abstract: theorems quantify
  over a resolution function `ICalTime → Int` (milliseconds), since no claim
  depends on which instant a given wall clock resolves to.
* The upstream iCal text parser (`ICAL.parse` + property extraction) is the
  external library boundary: a decoded `VEVENT` is represented by the
  property values the service actually reads (`VEventData`).
* Fallible/stateful code is explicit: the fetch cache is threaded as a value,
  the network response is an input, and the concurrency of the sync entry
  point is a small-step interleaving relation.
-/

namespace TPS

/-! ## `ICAL.Time` and property values (library boundary) -/

/-- An `ICAL.Time` value as the decode pass consumes it: wall-clock
components, the all-day flag (`isDate`), and the absolute time the library
reports via `toUnixTime()` (seconds since the epoch). -/
structure ICalTime where
  year : Int
  month : Int
  day : Int
  hour : Int
  minute : Int
  second : Int
  isDate : Bool
  unixTime : Int
deriving DecidableEq, Repr

/-- `ICAL.Time.toJSDate().getTime()`: epoch milliseconds. -/
def ICalTime.toJSDateMs (t : ICalTime) : Int := t.unixTime * 1000

/-- `ICAL.Time.compare`: both sides are converted to absolute time and
compared (seconds granularity). -/
def icalCompare (a b : ICalTime) : Int :=
  if a.unixTime < b.unixTime then -1 else if a.unixTime = b.unixTime then 0 else 1

/-- `end.addDuration(duration)` (seconds).  Only the absolute time is
maintained; no modelled code path reads the wall-clock components of an
end value. -/
def ICalTime.addSeconds (t : ICalTime) (d : Int) : ICalTime :=
  { t with unixTime := t.unixTime + d }

/-- A raw iCal property value as returned by `getFirstPropertyValue`:
a string, or an array of values (joined by `extractString`). -/
inductive ICalValue where
  | str (s : String)
  | arr (xs : List String)
deriving DecidableEq, Repr

/-- `extractString` (external-calendar-service.ts, lines 533-540): missing
property yields the fallback, an array value is joined with `", "`. -/
def extractString (val : Option ICalValue) (fallback : String) : String :=
  match val with
  | none => fallback
  | some (.str s) => s
  | some (.arr xs) => String.intercalate ", " xs

/-! JS string primitives, implemented over character lists so that every
definition evaluates inside the kernel. -/

/-- `s.toUpperCase()` (ASCII, as the compared literals are ASCII). -/
def jsToUpper (s : String) : String := String.mk (s.toList.map Char.toUpper)

/-- `s.toLowerCase()`. -/
def jsToLower (s : String) : String := String.mk (s.toList.map Char.toLower)

/-- `s.trim()`. -/
def jsTrim (s : String) : String :=
  String.mk (((s.toList.dropWhile Char.isWhitespace).reverse.dropWhile
    Char.isWhitespace).reverse)

/-- `s.startsWith(pre)`. -/
def strStartsWith (s pre : String) : Bool := List.isPrefixOf pre.toList s.toList

/-- `s.slice(n)` / `s.substring(n)` for a code-point count. -/
def strDrop (s : String) (n : Nat) : String := String.mk (s.toList.drop n)

/-- `s.includes(c)` for a single character. -/
def strContainsChar (s : String) (c : Char) : Bool := s.toList.contains c

/-! ## Exception (override) matching

The three effective comparison tiers of `parseICalData` (lines 214-241):
strict `ICAL.Time` comparison, absolute-time proximity within 60 seconds,
and wall-clock component equality (year/month/day/hour/minute). -/

/-- One exception time matches a generated occurrence instant. -/
def isExceptionTime (exTime next : ICalTime) : Bool :=
  if icalCompare exTime next = 0 then true
  else if (exTime.unixTime - next.unixTime).natAbs < 60 then true
  else if exTime.year = next.year && exTime.month = next.month &&
      exTime.day = next.day && exTime.hour = next.hour &&
      exTime.minute = next.minute then true
  else false

/-- `exceptionTimes?.some (exTime => ...)`. -/
def isException (exceptionTimes : List ICalTime) (next : ICalTime) : Bool :=
  exceptionTimes.any (fun exTime => isExceptionTime exTime next)

/-! ## Emitted events and `pushEvent` -/

/-- The `ExternalCalendarEvent` interface.  `startDate`/`endDate` are epoch
milliseconds (JS `Date`). -/
structure ExternalCalendarEvent where
  id : String
  uid : String
  title : String
  description : String
  startDate : Int
  endDate : Int
  sourceUrl : Option String := none
  location : String
  organizer : String
  attendees : List String
  isAllDay : Bool
  url : String
  isCancelled : Bool
deriving DecidableEq, Repr

/-- The `props` argument of `pushEvent`. -/
structure PushProps where
  uid : String
  id : Option String := none
  summary : String
  description : String
  location : String
  organizer : String
  attendees : List String
  url : String
  isCancelled : Bool
deriving DecidableEq, Repr

/-- JS `a || b` on an optional string: the empty string is falsy. -/
def jsStrOr (a : Option String) (b : String) : String :=
  match a with
  | some s => if s = "" then b else s
  | none => b

/-- `rangeStart && startDate < rangeStart`. -/
def beforeRange (startDate : Int) (rangeStartMs : Option Int) : Bool :=
  match rangeStartMs with
  | some r => decide (startDate < r)
  | none => false

/-- `rangeEnd && startDate > rangeEnd`. -/
def afterRange (startDate : Int) (rangeEndMs : Option Int) : Bool :=
  match rangeEndMs with
  | some r => decide (startDate > r)
  | none => false

/-- `pushEvent` (lines 494-531): range-filter on the start instant, then emit
with `id = props.id || uid + "-" + startDate.getTime()`.  The result is the
event appended to the output array, if any. -/
def pushEvent (startDate endDate : Int) (isAllDay : Bool) (props : PushProps)
    (rangeStartMs rangeEndMs : Option Int) : Option ExternalCalendarEvent :=
  if beforeRange startDate rangeStartMs then none
  else if afterRange startDate rangeEndMs then none
  else some {
    id := jsStrOr props.id (props.uid ++ "-" ++ toString startDate)
    uid := props.uid
    title := props.summary
    description := props.description
    startDate := startDate
    endDate := endDate
    location := props.location
    organizer := props.organizer
    attendees := props.attendees
    isAllDay := isAllDay
    url := props.url
    isCancelled := props.isCancelled }

/-! ## Recurrence expansion -/

/-- `MAX_ITERATIONS` (line 197). -/
def MAX_ITERATIONS : Nat := 2000

/-- `rangeEnd && next.compare(ICAL.Time.fromJSDate(rangeEnd)) > 0`:
`fromJSDate` keeps the absolute time at second granularity, and `compare`
compares absolute times. -/
def pastRangeEnd (next : ICalTime) (rangeEndMs : Option Int) : Bool :=
  match rangeEndMs with
  | some re => decide (next.unixTime > Int.fdiv re 1000)
  | none => false

/-- The recurring-event loop of `parseICalData` (lines 199-263).  The rule
iterator's output is the abstract list argument; `count` is the number of
iterations already taken.  `normalize` models `normalizeTime (·, explicitTzid)`
and `endOf` models `getOccurrenceDetails(next).endDate`. -/
def expandLoop (normalize : ICalTime → Int) (endOf : ICalTime → ICalTime)
    (exTimes : List ICalTime) (props : PushProps)
    (rangeStartMs rangeEndMs : Option Int) :
    List ICalTime → Nat → List ExternalCalendarEvent
  | [], _ => []
  | next :: rest, count =>
    if count + 1 > MAX_ITERATIONS then []
    else if pastRangeEnd next rangeEndMs then []
    else if isException exTimes next then
      expandLoop normalize endOf exTimes props rangeStartMs rangeEndMs rest (count + 1)
    else
      (pushEvent (normalize next) (normalize (endOf next)) next.isDate props
          rangeStartMs rangeEndMs).toList ++
        expandLoop normalize endOf exTimes props rangeStartMs rangeEndMs rest (count + 1)

/-! ## One decoded VEVENT -/

/-- The property values of one decoded `VEVENT` that pass 2 of
`parseICalData` reads.  `occurrences` is the output of the recurrence-rule
iterator (`event.iterator(event.startDate)`), abstracted as a list;
`organizer`/`attendees` carry the results of the dedicated extraction
helpers, which no claim inspects further. -/
structure VEventData where
  uidProp : Option ICalValue := none
  summaryProp : Option ICalValue := none
  descriptionProp : Option ICalValue := none
  locationProp : Option ICalValue := none
  urlProp : Option ICalValue := none
  statusProp : Option ICalValue := none
  organizer : String := ""
  attendees : List String := []
  recurrenceId : Option ICalTime := none
  startDate : ICalTime
  endDate : Option ICalTime := none
  durationSec : Option Int := none
  isRecurring : Bool := false
  occurrences : List ICalTime := []
deriving DecidableEq, Repr

/-- Status handling (lines 128-129): case-insensitive, both spellings. -/
def evIsCancelled (ev : VEventData) : Bool :=
  let status := jsToUpper (extractString ev.statusProp "")
  status = "CANCELLED" || status = "CANCELED"

/-- `ICAL.Event.uid` as used for the exception index (pass 1, line 113, and
the lookup at line 205): the uid property value. -/
def evLibUid (ev : VEventData) : String :=
  match ev.uidProp with
  | some v => extractString (some v) ""
  | none => ""

/-- The uid pass 2 extracts (line 142): the `UID` property, defaulting to
the decimal unix seconds of the event start. -/
def extractedUid (ev : VEventData) : String :=
  extractString ev.uidProp (toString ev.startDate.unixTime)

/-- The push properties pass 2 assembles for an event (lines 139-146). -/
def evProps (ev : VEventData) : PushProps := {
  uid := extractedUid ev, id := none,
  summary := extractString ev.summaryProp "Untitled Event",
  description := extractString ev.descriptionProp "",
  location := extractString ev.locationProp "",
  organizer := ev.organizer, attendees := ev.attendees,
  url := extractString ev.urlProp "", isCancelled := evIsCancelled ev }

/-- `event.endDate ?? event.startDate.clone()` plus
`end.addDuration(event.duration)` (lines 265-268). -/
def evEndTime (ev : VEventData) : ICalTime :=
  match ev.endDate with
  | some e => e
  | none =>
    match ev.durationSec with
    | some d => ev.startDate.addSeconds d
    | none => ev.startDate

/-- Stable-id generation for the non-recurring branch (lines 273-282):
`uid + "-" + recurrenceId.toJSDate().getTime()` for an override,
the uid alone for a master event. -/
def evStableId (ev : VEventData) : String :=
  match ev.recurrenceId with
  | some rid => extractedUid ev ++ "-" ++ toString rid.toJSDateMs
  | none => extractedUid ev

/-- Pass 2 of `parseICalData` for a single event (lines 125-298), given the
exception times registered for its uid.  `normalize` abstracts
`normalizeTime (·, explicitTzid)` (milliseconds). -/
def processParsedEvent (normalize : ICalTime → Int) (endOf : ICalTime → ICalTime)
    (exTimes : List ICalTime) (ev : VEventData)
    (rangeStartMs rangeEndMs : Option Int) (includeCancelled : Bool) :
    List ExternalCalendarEvent :=
  if evIsCancelled ev && !includeCancelled then []
  else if ev.isRecurring then
    expandLoop normalize endOf exTimes (evProps ev) rangeStartMs rangeEndMs
      ev.occurrences 0
  else
    (pushEvent (normalize ev.startDate) (normalize (evEndTime ev))
      ev.startDate.isDate { evProps ev with id := some (evStableId ev) }
      rangeStartMs rangeEndMs).toList

/-- Pass 1 (lines 107-122): register a recurrence-id under its uid,
preserving insertion order. -/
def addException (m : List (String × List ICalTime)) (uid : String)
    (rid : ICalTime) : List (String × List ICalTime) :=
  match m with
  | [] => [(uid, [rid])]
  | (k, v) :: rest =>
    if k = uid then (k, v ++ [rid]) :: rest else (k, v) :: addException rest uid rid

/-- The exception index built by pass 1. -/
def buildExceptions (evs : List VEventData) : List (String × List ICalTime) :=
  evs.foldl (fun m ev =>
    match ev.recurrenceId with
    | some rid => addException m (evLibUid ev) rid
    | none => m) []

/-- Lookup in the exception index; a uid with no entry behaves as the empty
list (`exceptions.has(uid)` guarding `exceptionTimes?.some`). -/
def lookupExceptions (m : List (String × List ICalTime)) (uid : String) :
    List ICalTime :=
  match m.find? (fun p => p.1 = uid) with
  | some p => p.2
  | none => []

/-- The decode+expand pass over a list of decoded events (`parseICalData`,
both passes). -/
def parseICalEvents (normalize : ICalTime → Int) (endOf : ICalTime → ICalTime)
    (evs : List VEventData) (rangeStartMs rangeEndMs : Option Int)
    (includeCancelled : Bool) : List ExternalCalendarEvent :=
  let exMap := buildExceptions evs
  evs.foldr (fun ev acc =>
    processParsedEvent normalize endOf (lookupExceptions exMap (evLibUid ev)) ev
      rangeStartMs rangeEndMs includeCancelled ++ acc) []

/-! ## Fetch cache (`fetchEvents`, `getCacheKey`, `normalizeUrl`) -/

/-- `CACHE_TTL = 5 * 60 * 1000` (line 23). -/
def CACHE_TTL : Int := 5 * 60 * 1000

/-- The Gregorian calendar date (year, month, day) of a day number counted
from the epoch (1970-01-01 is day 0), as UTC `Date` accessors and
`toISOString` compute it. -/
def civilFromDays (z0 : Int) : Int × Int × Int :=
  let z := z0 + 719468
  let era := Int.fdiv z 146097
  let doe := z - era * 146097
  let yoe := Int.fdiv (doe - Int.fdiv doe 1460 + Int.fdiv doe 36524 - Int.fdiv doe 146096) 365
  let y := yoe + era * 400
  let doy := doe - (365 * yoe + Int.fdiv yoe 4 - Int.fdiv yoe 100)
  let mp := Int.fdiv (5 * doy + 2) 153
  let d := doy - Int.fdiv (153 * mp + 2) 5 + 1
  let m := mp + (if mp < 10 then 3 else -9)
  (y + (if m ≤ 2 then 1 else 0), m, d)

/-- Zero-pad to two digits. -/
def pad2 (n : Int) : String :=
  if n < 10 then "0" ++ toString n else toString n

/-- Zero-pad to four digits (years in the modelled windows). -/
def pad4 (n : Int) : String :=
  if n < 10 then "000" ++ toString n
  else if n < 100 then "00" ++ toString n
  else if n < 1000 then "0" ++ toString n
  else toString n

/-- `date.toISOString().split('T')[0]`: the UTC calendar date of an epoch-ms
instant, formatted `YYYY-MM-DD`.  It depends on the instant only through its
UTC day number. -/
def isoDatePart (ms : Int) : String :=
  let days := Int.fdiv ms 86400000
  let ymd := civilFromDays days
  pad4 ymd.1 ++ "-" ++ pad2 ymd.2.1 ++ "-" ++ pad2 ymd.2.2

/-- `getCacheKey` (lines 580-584). -/
def getCacheKey (url : String) (rangeStartMs rangeEndMs : Option Int)
    (includeCancelled : Bool) : String :=
  let startKey := match rangeStartMs with | some d => isoDatePart d | none => "none"
  let endKey := match rangeEndMs with | some d => isoDatePart d | none => "none"
  url ++ "::" ++ startKey ++ "::" ++ endKey ++ "::" ++
    (if includeCancelled then "true" else "false")

/-- `normalizeUrl` (lines 570-578). -/
def normalizeUrl (url : Option String) : Option String :=
  match url with
  | none => none
  | some u =>
    let trimmed := jsTrim u
    if trimmed = "" then none
    else if strStartsWith (jsToLower trimmed) "webcal://" then
      some ("https://" ++ strDrop trimmed 9)
    else some trimmed

/-- The in-memory cache `Map<string, { events, expiry }>`, as an insertion-
ordered association list. -/
def FetchCache : Type := List (String × (List ExternalCalendarEvent × Int))

/-- `cache.get(key)`. -/
def cacheGet (c : FetchCache) (k : String) :
    Option (List ExternalCalendarEvent × Int) :=
  match c.find? (fun p => p.1 = k) with
  | some p => some p.2
  | none => none

/-- `cache.set(key, value)` (replace or append). -/
def cacheSet (c : FetchCache) (k : String)
    (v : List ExternalCalendarEvent × Int) : FetchCache :=
  match c with
  | [] => [(k, v)]
  | (k', v') :: rest =>
    if k' = k then (k', v) :: rest else (k', v') :: cacheSet rest k v

/-- The outcome of `requestUrl`: a thrown network error, or a response with
a status and a body. -/
inductive FetchResponse where
  | err
  | ok (status : Int) (text : String)
deriving DecidableEq, Repr

/-- `fetchEvents` (lines 26-76).  `parse` abstracts
`parseICalData (·, rangeStart, rangeEnd, includeCancelled)`; `response` is the
network outcome this call would observe; `now` is `Date.now()` during the
call.  Returns the events together with the cache left behind. -/
def fetchEvents (parse : String → List ExternalCalendarEvent)
    (response : FetchResponse) (now : Int) (cache : FetchCache)
    (calendarUrl : String) (rangeStartMs rangeEndMs : Option Int)
    (includeCancelled : Bool) : List ExternalCalendarEvent × FetchCache :=
  match normalizeUrl (some calendarUrl) with
  | none => ([], cache)
  | some url =>
    let cacheKey := getCacheKey url rangeStartMs rangeEndMs includeCancelled
    let hit : Option (List ExternalCalendarEvent) :=
      match cacheGet cache cacheKey with
      | some cached => if now < cached.2 then some cached.1 else none
      | none => none
    match hit with
    | some events => (events, cache)
    | none =>
      match response with
      | .err => ([], cache)
      | .ok status text =>
        if status ≠ 200 then ([], cache)
        else
          let events := (parse text).map (fun e => { e with sourceUrl := some url })
          (events, cacheSet cache cacheKey (events, now + CACHE_TTL))

/-! ## Identity reconciliation (`auto-create-service.ts`)

String helpers mirroring the JS operations the service uses. -/

/-- `s.lastIndexOf(c)`: last index of the character, `-1` if absent. -/
def lastIndexOfChar (s : String) (c : Char) : Int :=
  let rec go : List Char → Int → Int → Int
    | [], _, acc => acc
    | x :: xs, i, acc => go xs (i + 1) (if x = c then i else acc)
  go s.toList 0 (-1)

/-- `s.substring(i)` for a non-negative start index. -/
def substringFrom (s : String) (i : Int) : String :=
  String.mk (s.toList.drop i.toNat)

/-- `s.substring(0, i)` for a non-negative end index. -/
def substringTo (s : String) (i : Int) : String :=
  String.mk (s.toList.take i.toNat)

/-- `/^\d+$/.test(s)`: non-empty and all ASCII digits. -/
def isDigitString (s : String) : Bool :=
  s.toList ≠ [] && s.toList.all (fun c => c.isDigit)

/-- Value of a non-empty list of decimal digits. -/
def digitsVal (cs : List Char) : Option Nat :=
  let ds := cs.takeWhile (fun c => c.isDigit)
  if ds = [] then none
  else some (ds.foldl (fun a c => a * 10 + (c.toNat - '0'.toNat)) 0)

/-- JS `parseInt(s)` on base-10 input: skip leading whitespace, optional
sign, longest decimal-digit run; `none` models `NaN`.  (The hexadecimal
`0x` form never arises here: inputs are decimal timestamp suffixes.) -/
def parseIntJS (s : String) : Option Int :=
  let cs := s.toList.dropWhile (fun c => c.isWhitespace)
  match cs with
  | '-' :: rest => (digitsVal rest).map (fun n => -(n : Int))
  | '+' :: rest => (digitsVal rest).map (fun n => (n : Int))
  | _ => (digitsVal cs).map (fun n => (n : Int))

/-- A `VaultNoteIndex` entry (auto-create-service.ts, lines 21-26).
`file` is the note's path; `startDate` is the parsed start in epoch ms. -/
structure VaultNote where
  file : String
  googleEventId : String
  uid : String
  startDate : Option Int
deriving DecidableEq, Repr

/-- The series-uid derivation of `buildVaultIndex` (lines 240-247): strip a
trailing `-<digits>` suffix when the dash is not at position 0 and the
suffix is purely numeric. -/
def deriveUid (googleEventId : String) : String :=
  let lastDash := lastIndexOfChar googleEventId '-'
  if lastDash > 0 then
    let suffix := substringFrom googleEventId (lastDash + 1)
    if isDigitString suffix then substringTo googleEventId lastDash
    else googleEventId
  else googleEventId

/-- Raw frontmatter facts of a note carrying a `googleEventId` marker, as
read from the metadata cache (frontmatter extraction and date parsing are
the host application's side). -/
structure RawNote where
  file : String
  googleEventId : String
  startDate : Option Int
deriving DecidableEq, Repr

/-- `buildVaultIndex` (lines 225-264), restricted to the notes that carry a
`googleEventId`. -/
def buildVaultIndex (raw : List RawNote) : List VaultNote :=
  raw.map (fun r =>
    { file := r.file, googleEventId := r.googleEventId,
      uid := deriveUid r.googleEventId, startDate := r.startDate })

/-! UTC accessors of a JS `Date` built from epoch milliseconds. -/

/-- Milliseconds since UTC midnight. -/
def msOfDay (ms : Int) : Int := ms - 86400000 * Int.fdiv ms 86400000

/-- `d.getUTCHours()`. -/
def getUTCHours (ms : Int) : Int := Int.fdiv (msOfDay ms) 3600000

/-- `d.getUTCMinutes()`. -/
def getUTCMinutes (ms : Int) : Int := (Int.fdiv (msOfDay ms) 60000) % 60

/-- `d.getUTCDate()` (day of month). -/
def getUTCDate (ms : Int) : Int := (civilFromDays (Int.fdiv ms 86400000)).2.2

/-- The numeric recurrence-offset suffix of a note's recorded id
(`n.googleEventId.substring(n.googleEventId.lastIndexOf('-') + 1)` then
`parseInt`). -/
def noteRidTs (n : VaultNote) : Option Int :=
  parseIntJS (substringFrom n.googleEventId (lastIndexOfChar n.googleEventId '-' + 1))

/-- Tier 1 of the fuzzy candidate test (line 297): offsets within 65 minutes
of absolute time. -/
def withinTolerance (eventRidTs : Int) (n : VaultNote) : Bool :=
  match noteRidTs n with
  | some ts => decide ((eventRidTs - ts).natAbs < 65 * 60 * 1000)
  | none => false

/-- Tier 2 of the fuzzy candidate test (lines 302-308): equal UTC hour,
minute and day-of-month of the two offsets. -/
def componentMatch (eventRidTs : Int) (n : VaultNote) : Bool :=
  match noteRidTs n with
  | some ts =>
    getUTCHours eventRidTs = getUTCHours ts &&
    getUTCMinutes eventRidTs = getUTCMinutes ts &&
    getUTCDate eventRidTs = getUTCDate ts
  | none => false

/-- The candidate predicate of `candidates.find` (lines 290-312): `false` on
a non-numeric suffix, otherwise the 65-minute tolerance or the component
comparison (the two early `return true` branches). -/
def fuzzyNoteMatch (eventRidTs : Int) (n : VaultNote) : Bool :=
  withinTolerance eventRidTs n || componentMatch eventRidTs n

/-- The matching stage of `processEvent` (lines 273-321): exact stable-id
match first, then the fuzzy series-UID match. -/
def findMatch (event : ExternalCalendarEvent) (index : List VaultNote) :
    Option VaultNote :=
  match index.find? (fun n => n.googleEventId = event.id) with
  | some m => some m
  | none =>
    let candidates := index.filter (fun n => n.uid = event.uid)
    if candidates.length > 0 then
      let isRecurringInstance := strContainsChar event.id '-' && event.id ≠ event.uid
      if isRecurringInstance then
        let eventRecurrenceId :=
          substringFrom event.id (lastIndexOfChar event.id '-' + 1)
        match parseIntJS eventRecurrenceId with
        | some ts => candidates.find? (fun n => fuzzyNoteMatch ts n)
        | none => none
      else
        if candidates.length = 1 then candidates.head? else none
    else none

/-! ## Outcome of processing one occurrence -/

/-- The `syncOnEventDelete` configuration. -/
inductive SyncOnEventDelete where
  | delete
  | archive
  | nothing
deriving DecidableEq, Repr

/-- What `deleteOrArchive` (lines 417-431) does to the matched file. -/
inductive DeleteEffect where
  | hardDelete
  | archiveMove (folder : String)
  | noEffect
  | markCancelled (statusValue : Option String)
deriving DecidableEq, Repr

/-- `deleteOrArchive`: hard delete, move into the archive folder (a falsy —
empty — folder does nothing), or mark the note cancelled. -/
def deleteOrArchive (policy : SyncOnEventDelete) (archiveFolder : String)
    (canceledStatusValue : Option String) : DeleteEffect :=
  match policy with
  | .delete => .hardDelete
  | .archive => if archiveFolder ≠ "" then .archiveMove archiveFolder else .noEffect
  | .nothing => .markCancelled canceledStatusValue

/-- The relevant slice of `AutoCreateServiceConfig`. -/
structure AutoCreateConfig where
  startProperty : String
  endProperty : String
  useEndDuration : Bool
  syncOnEventDelete : SyncOnEventDelete
  archiveFolder : String
  canceledStatusValue : Option String
deriving DecidableEq, Repr

/-- The decision `processEvent` (lines 266-415) reaches for one occurrence:
delete the matched note per policy, take the update path on the matched
note, create a note, skip a hidden unmatched occurrence, or nothing
(cancelled and unmatched). -/
inductive EventOutcome where
  | deletedNote (file : String) (effect : DeleteEffect)
  | updatedNote (file : String)
  | createdNote
  | skippedHidden
  | noMatchNoCreate
deriving DecidableEq, Repr

/-- The decision tree of `processEvent`. -/
def processEventDecision (cfg : AutoCreateConfig) (event : ExternalCalendarEvent)
    (index : List VaultNote) (hiddenEvents : List String) : EventOutcome :=
  match findMatch event index with
  | some m =>
    if event.isCancelled then
      .deletedNote m.file
        (deleteOrArchive cfg.syncOnEventDelete cfg.archiveFolder cfg.canceledStatusValue)
    else .updatedNote m.file
  | none =>
    if !event.isCancelled then
      if hiddenEvents.contains event.id || hiddenEvents.contains event.uid then
        .skippedHidden
      else .createdNote
    else .noMatchNoCreate

/-! ## Frontmatter update of a matched, non-cancelled occurrence -/

/-- A frontmatter value: string, number, or boolean. -/
inductive FMValue where
  | str (s : String)
  | num (n : Int)
  | boolean (b : Bool)
deriving DecidableEq, Repr

/-- A frontmatter block, as an association list of fields. -/
def FrontMatter : Type := List (String × FMValue)

/-- Read a field. -/
def fmGet (fm : FrontMatter) (k : String) : Option FMValue :=
  match fm.find? (fun p => p.1 = k) with
  | some p => some p.2
  | none => none

/-- Write a field (replace or append). -/
def fmSet (fm : FrontMatter) (k : String) (v : FMValue) : FrontMatter :=
  match fm with
  | [] => [(k, v)]
  | (k', v') :: rest =>
    if k' = k then (k', v) :: rest else (k', v') :: fmSet rest k v

/-- `if (fm[k] !== v) fm[k] = v`: strict inequality against the current
value (an absent field is `undefined`, hence always overwritten). -/
def fmSetIfNe (fm : FrontMatter) (k : String) (v : FMValue) : FrontMatter :=
  if fmGet fm k = some v then fm else fmSet fm k v

/-- JS `Math.round (num / den)` for a positive denominator, computed exactly
on rationals: `floor (num/den + 1/2)`. -/
def jsRoundDiv (num den : Int) : Int := Int.fdiv (2 * num + den) (2 * den)

/-- The frontmatter mutation of the update path (`processFrontMatter`
callback, lines 336-370).  `fmtDT` abstracts `formatDateTimeForFrontmatter`
(defined in `utils.ts`, outside the reconciler); only which fields are
written, not the formatted text, matters here. -/
def updateFrontmatter (fmtDT : Int → String) (cfg : AutoCreateConfig)
    (event : ExternalCalendarEvent) (fm : FrontMatter) : FrontMatter :=
  let fm1 := fmSetIfNe fm "googleEventId" (.str event.id)
  let fmtStart := fmtDT event.startDate
  let fm2 := fmSetIfNe fm1 cfg.startProperty (.str fmtStart)
  let fm3 :=
    if (fmGet fm2 "scheduled").isSome then fmSetIfNe fm2 "scheduled" (.str fmtStart)
    else fm2
  let fm4 :=
    if !cfg.useEndDuration then
      fmSetIfNe fm3 cfg.endProperty (.str (fmtDT event.endDate))
    else
      fmSetIfNe fm3 cfg.endProperty (.num (jsRoundDiv (event.endDate - event.startDate) 60000))
  fmSetIfNe fm4 "title" (.str event.title)

/-! ## Sync window and orphan pass -/

/-- `start.setDate(start.getDate() - 7)` at cycle start (line 96-97), with
calendar days of the UTC host: 7 days before `now`. -/
def syncWindowStart (now : Int) : Int := now - 7 * 86400000

/-- `end.setDate(end.getDate() + 14)` (line 98-99): 14 days after `now`. -/
def syncWindowEnd (now : Int) : Int := now + 14 * 86400000

/-- Is a recorded start inside the window (`note.startDate && note.startDate
>= start && note.startDate <= end`, line 135)?  A note with no parsed start
never qualifies. -/
def startsInWindow (startDate : Option Int) (wStart wEnd : Int) : Bool :=
  match startDate with
  | some d => decide (wStart ≤ d) && decide (d ≤ wEnd)
  | none => false

/-- The orphan pass (lines 129-142): every indexed note whose path was not
claimed by any processed occurrence and whose recorded start lies inside the
window. -/
def orphanDeletes (index : List VaultNote) (matchedFiles : List String)
    (wStart wEnd : Int) : List VaultNote :=
  index.filter (fun n =>
    !matchedFiles.contains n.file && startsInWindow n.startDate wStart wEnd)

/-- The orphan pass together with the per-note effect: each orphan receives
`deleteOrArchive`. -/
def orphanPass (cfg : AutoCreateConfig) (index : List VaultNote)
    (matchedFiles : List String) (wStart wEnd : Int) :
    List (String × DeleteEffect) :=
  (orphanDeletes index matchedFiles wStart wEnd).map (fun n =>
    (n.file, deleteOrArchive cfg.syncOnEventDelete cfg.archiveFolder cfg.canceledStatusValue))

/-! ## The sync entry point as an interleaving state machine

`checkAndCreateMeetingNotes` (lines 72-155) runs on a single-threaded event
loop; its atomic segments are delimited by `await` points:

* the `isSyncing` guard (lines 79-82) together with entering
  `waitForVaultToSettle`, which always reaches an `await`;
* the return from the vault-idle wait, `this.isSyncing = true` (line 91) and
  the start of fetching;
* the fetch/reconcile work up to the applying loop;
* the end of the cycle, where `finally` clears the flag (line 153).

A task is one invocation of the entry point. -/

/-- Program counter of one invocation. -/
inductive TaskPC where
  | entry
  | vaultWait
  | running
  | applying
  | finished
  | dropped
deriving DecidableEq, Repr

/-- The event-loop state: the `isSyncing` flag plus every invocation's
program counter. -/
structure SyncSystem where
  isSyncing : Bool
  tasks : List TaskPC
deriving DecidableEq, Repr

/-- One atomic step of invocation `i`. -/
inductive SyncStep (i : Nat) : SyncSystem → SyncSystem → Prop where
  | checkDrop (s : SyncSystem) (h : s.tasks[i]? = some .entry)
      (hflag : s.isSyncing = true) :
      SyncStep i s ⟨s.isSyncing, s.tasks.set i .dropped⟩
  | checkPass (s : SyncSystem) (h : s.tasks[i]? = some .entry)
      (hflag : s.isSyncing = false) :
      SyncStep i s ⟨s.isSyncing, s.tasks.set i .vaultWait⟩
  | acquire (s : SyncSystem) (h : s.tasks[i]? = some .vaultWait) :
      SyncStep i s ⟨true, s.tasks.set i .running⟩
  | toApply (s : SyncSystem) (h : s.tasks[i]? = some .running) :
      SyncStep i s ⟨s.isSyncing, s.tasks.set i .applying⟩
  | finish (s : SyncSystem) (h : s.tasks[i]? = some .applying) :
      SyncStep i s ⟨false, s.tasks.set i .finished⟩

/-- A step by some invocation. -/
def SysStep (s s' : SyncSystem) : Prop := ∃ i, SyncStep i s s'

/-- Interleaved execution. -/
def SysReaches (s s' : SyncSystem) : Prop := Relation.ReflTransGen SysStep s s'

/-! ## Concrete instances used to exercise the definitions -/

/-- Build an `ICalTime` whose wall-clock components are the UTC components
of a unix-second count — a floating/UTC time as the library would report
it. -/
def icalTimeOfUnix (u : Int) : ICalTime :=
  let days := Int.fdiv u 86400
  let ymd := civilFromDays days
  let sod := u - 86400 * days
  ⟨ymd.1, ymd.2.1, ymd.2.2, Int.fdiv sod 3600, (Int.fdiv sod 60) % 60, sod % 60,
    false, u⟩

/-- A timezone resolution that maps a time to its absolute instant in
milliseconds (the UTC-feed case). -/
def nrmUnixMs : ICalTime → Int := fun t => t.unixTime * 1000

/-- Occurrence ends one hour after their starts. -/
def endOfHour : ICalTime → ICalTime := fun t => t.addSeconds 3600

/-- One week in seconds. -/
def weekSec : Int := 604800

/-- A weekly recurring master event with UID `series1`, four generated
occurrences (weeks 1-4). -/
def weeklyMaster : VEventData := {
  uidProp := some (.str "series1"), summaryProp := some (.str "Weekly"),
  startDate := icalTimeOfUnix 0, isRecurring := true,
  occurrences := [icalTimeOfUnix 0, icalTimeOfUnix weekSec,
    icalTimeOfUnix (2 * weekSec), icalTimeOfUnix (3 * weekSec)] }

/-- The override instance for week 2 of `weeklyMaster`: `RECURRENCE-ID` at
the original week-2 instant, rescheduled two hours later. -/
def week2Override : VEventData := {
  uidProp := some (.str "series1"), summaryProp := some (.str "Moved"),
  startDate := icalTimeOfUnix (weekSec + 7200),
  recurrenceId := some (icalTimeOfUnix weekSec) }

/-- A non-recurring master event whose `UID` property is present but empty. -/
def emptyUidMaster : VEventData := {
  uidProp := some (.str ""), summaryProp := some (.str "Solo"),
  startDate := icalTimeOfUnix 5 }

/-- Local note whose recurrence offset shares UTC hour/minute/day-of-month
with offset 100 but lies 31 days away. -/
def monthAwayNote : VaultNote :=
  ⟨"n1.md", "u-2678400100", "u", none⟩

/-- Local note whose recurrence offset is one minute from offset 100. -/
def minuteAwayNote : VaultNote :=
  ⟨"n2.md", "u-60100", "u", none⟩

/-- Index containing both candidates, `monthAwayNote` first. -/
def twoCandidateIndex : List VaultNote :=
  buildVaultIndex [⟨"n1.md", "u-2678400100", none⟩, ⟨"n2.md", "u-60100", none⟩]

/-- A recurring-instance occurrence of series `u` at offset 100. -/
def offset100Event : ExternalCalendarEvent := {
  id := "u-100", uid := "u", title := "T", description := "",
  startDate := 100, endDate := 100, location := "", organizer := "",
  attendees := [], isAllDay := false, url := "", isCancelled := false }

/-- Plain push properties for a series with UID `series1`. -/
def simpleProps : PushProps := {
  uid := "series1", id := none, summary := "Weekly", description := "",
  location := "", organizer := "", attendees := [], url := "",
  isCancelled := false }

/-- A concrete frontmatter date formatter (decimal milliseconds). -/
def fmtToString : Int → String := fun n => toString n

/-- A concrete service configuration: mirror end instants, archive on
remote delete. -/
def cfgW : AutoCreateConfig := {
  startProperty := "date", endProperty := "end", useEndDuration := false,
  syncOnEventDelete := .archive, archiveFolder := "Archive",
  canceledStatusValue := none }

/-- A concrete single occurrence with UID `abc123`. -/
def evW : ExternalCalendarEvent := {
  id := "abc123", uid := "abc123", title := "Evt", description := "",
  startDate := 0, endDate := 3600000, location := "", organizer := "",
  attendees := [], isAllDay := false, url := "", isCancelled := false }

/-- The cancelled variant of `evW`. -/
def evWCancelled : ExternalCalendarEvent := { evW with isCancelled := true }

/-- A concrete frontmatter block with a manual field and a `scheduled`
field. -/
def fmW : FrontMatter := [("foo", .str "bar"), ("scheduled", .str "old")]

/-- A local note recorded for `abc123` starting at the epoch. -/
def matchNote : VaultNote := ⟨"m.md", "abc123", "abc123", some 0⟩

/-- No valid (unexpired) cache entry exists under this key at this time, so
a call must actually fetch. -/
def cacheMiss (cache : FetchCache) (key : String) (now : Int) : Prop :=
  match cacheGet cache key with
  | some c => c.2 ≤ now
  | none => True

/-- A parse result used to exercise the cache: one fixed event per body. -/
def oneEventParse : String → List ExternalCalendarEvent := fun _ => [offset100Event]

/-- A decoded event with no `UID` property, starting at absolute second 42. -/
def noUidEvent : VEventData := { startDate := icalTimeOfUnix 42 }

/-- A second, distinct decoded event with no `UID` property and the same
start. -/
def noUidEvent2 : VEventData :=
  { summaryProp := some (.str "B"), startDate := icalTimeOfUnix 42 }

/-! ## Helper lemmas -/

theorem pushEvent_some {startDate endDate : Int} {isAllDay : Bool}
    {props : PushProps} {rs re : Option Int} {e : ExternalCalendarEvent}
    (h : pushEvent startDate endDate isAllDay props rs re = some e) :
    e.id = jsStrOr props.id (props.uid ++ "-" ++ toString startDate) ∧
    e.uid = props.uid ∧ e.startDate = startDate ∧ e.endDate = endDate := by
  unfold pushEvent at h
  by_cases h1 : beforeRange startDate rs
  · simp [h1] at h
  · by_cases h2 : afterRange startDate re
    · simp [h1, h2] at h
    · simp [h1, h2] at h
      subst h
      exact ⟨rfl, rfl, rfl, rfl⟩

theorem mem_expandLoop {normalize : ICalTime → Int} {endOf : ICalTime → ICalTime}
    {exTimes : List ICalTime} {props : PushProps} {rs re : Option Int}
    {e : ExternalCalendarEvent} :
    ∀ {gen : List ICalTime} {count : Nat},
      e ∈ expandLoop normalize endOf exTimes props rs re gen count →
      ∃ t ∈ gen, isException exTimes t = false ∧
        pushEvent (normalize t) (normalize (endOf t)) t.isDate props rs re = some e := by
  intro gen
  induction gen with
  | nil => intro count h; simp [expandLoop] at h
  | cons t rest ih =>
    intro count h
    unfold expandLoop at h
    by_cases hcap : count + 1 > MAX_ITERATIONS
    · simp [hcap] at h
    · by_cases hre : pastRangeEnd t re
      · simp [hcap, hre] at h
      · by_cases hex : isException exTimes t
        · simp [hcap, hre, hex] at h
          obtain ⟨u, hu, hrest⟩ := ih h
          exact ⟨u, List.mem_cons_of_mem _ hu, hrest⟩
        · simp [hcap, hre, hex] at h
          rcases h with h | h
          · exact ⟨t, List.mem_cons_self t rest, by simp [hex], h⟩
          · obtain ⟨u, hu, hrest⟩ := ih h
            exact ⟨u, List.mem_cons_of_mem _ hu, hrest⟩

/-- With no upper time bound and within the iteration cap, the recurring
loop emits exactly the non-excepted generated instants, in order. -/
theorem expandLoop_eq_filter {normalize : ICalTime → Int}
    {endOf : ICalTime → ICalTime} {exTimes : List ICalTime} {props : PushProps}
    {rs : Option Int} :
    ∀ (gen : List ICalTime) (count : Nat), count + gen.length ≤ MAX_ITERATIONS →
      expandLoop normalize endOf exTimes props rs none gen count
        = (gen.filter (fun t => !isException exTimes t)).foldr
            (fun t acc =>
              (pushEvent (normalize t) (normalize (endOf t)) t.isDate props rs none).toList
                ++ acc) [] := by
  intro gen
  induction gen with
  | nil => intro count _; simp [expandLoop]
  | cons t rest ih =>
    intro count hcap
    have hcap1 : ¬ count + 1 > MAX_ITERATIONS := by
      simp only [List.length_cons] at hcap; omega
    have hcaprest : count + 1 + rest.length ≤ MAX_ITERATIONS := by
      simp only [List.length_cons] at hcap; omega
    have hre : pastRangeEnd t none = false := rfl
    by_cases hex : isException exTimes t
    · simp [expandLoop, hcap1, hre, hex, ih (count + 1) hcaprest]
    · simp [expandLoop, hcap1, hre, hex, ih (count + 1) hcaprest]

theorem string_append_dash_ne_empty (u x : String) : u ++ "-" ++ x ≠ "" := by
  intro h
  have h1 : ((u ++ "-") ++ x).length = 0 := by rw [h]; rfl
  rw [String.length_append, String.length_append] at h1
  have h2 : "-".length = 1 := rfl
  omega

theorem jsStrOr_ne_empty {a : Option String} {b : String} (hb : b ≠ "") :
    jsStrOr a b ≠ "" := by
  unfold jsStrOr
  match a with
  | none => exact hb
  | some s =>
    by_cases hs : s = ""
    · simp [hs]; exact hb
    · simp [hs]

theorem nat_toDigitsCore_length_le (b : Nat) :
    ∀ (f n : Nat) (ds : List Char), ds.length ≤ (Nat.toDigitsCore b f n ds).length := by
  intro f
  induction f with
  | zero => intro n ds; simp [Nat.toDigitsCore]
  | succ f ih =>
    intro n ds
    unfold Nat.toDigitsCore
    by_cases h : n / b = 0
    · simp [h]
    · simp only [h, if_false]
      calc ds.length ≤ (Nat.digitChar (n % b) :: ds).length := by simp
        _ ≤ _ := ih (n / b) (Nat.digitChar (n % b) :: ds)

theorem nat_toDigits_ne_nil (b n : Nat) : Nat.toDigits b n ≠ [] := by
  unfold Nat.toDigits Nat.toDigitsCore
  by_cases h : n / b = 0
  · simp [h]
  · simp only [h, if_false]
    intro hc
    have hle := nat_toDigitsCore_length_le b n (n / b) [Nat.digitChar (n % b)]
    rw [hc] at hle
    simp at hle

theorem nat_repr_ne_empty (n : Nat) : Nat.repr n ≠ "" := by
  intro h
  have hdata : (Nat.toDigits 10 n).asString.data = String.data "" := by
    rw [show (Nat.toDigits 10 n).asString = Nat.repr n from rfl, h]
  have : Nat.toDigits 10 n = [] := hdata
  exact nat_toDigits_ne_nil 10 n this

theorem int_toString_ne_empty (i : Int) : toString i ≠ "" := by
  cases i with
  | ofNat m =>
    show Int.repr (Int.ofNat m) ≠ ""
    simp only [Int.repr]
    exact nat_repr_ne_empty m
  | negSucc m =>
    show Int.repr (Int.negSucc m) ≠ ""
    simp only [Int.repr]
    intro h
    have h1 : ("-" ++ Nat.repr (Nat.succ m)).length = 0 := by rw [h]; rfl
    rw [String.length_append] at h1
    have h2 : "-".length = 1 := rfl
    omega

theorem jsStrOr_some_of_ne {s b : String} (h : s ≠ "") : jsStrOr (some s) b = s := by
  simp [jsStrOr, h]

/-- Every event the single-event decode pass emits carries the extracted
uid, and its stable id is never the empty string. -/
theorem mem_processParsedEvent_uid_id {normalize : ICalTime → Int}
    {endOf : ICalTime → ICalTime} {exTimes : List ICalTime} {ev : VEventData}
    {rs re : Option Int} {inc : Bool} {e : ExternalCalendarEvent}
    (h : e ∈ processParsedEvent normalize endOf exTimes ev rs re inc) :
    e.uid = extractedUid ev ∧ e.id ≠ "" := by
  unfold processParsedEvent at h
  by_cases hc : (evIsCancelled ev && !inc) = true
  · simp [hc] at h
  · rw [Bool.not_eq_true] at hc
    simp only [hc, Bool.false_eq_true, if_false] at h
    by_cases hr : ev.isRecurring
    · simp only [hr, if_true] at h
      obtain ⟨t, _, _, hp⟩ := mem_expandLoop h
      obtain ⟨hid, huid, hstart, _⟩ := pushEvent_some hp
      refine ⟨huid, ?_⟩
      rw [hid]
      exact jsStrOr_ne_empty (string_append_dash_ne_empty _ _)
    · simp only [hr, Bool.false_eq_true, if_false, Option.mem_toList,
        Option.mem_def] at h
      obtain ⟨hid, huid, hstart, _⟩ := pushEvent_some h
      refine ⟨huid, ?_⟩
      rw [hid]
      exact jsStrOr_ne_empty (string_append_dash_ne_empty _ _)

/-- C5: a generated occurrence instant that matches a registered override
instant of the same series under any comparison tier is skipped and
produces no plain occurrence (within the iteration cap and with no upper
time bound, the loop emits exactly the non-matching instants, in order);
in particular, a weekly series with one override for week 2 expanded over
4 weeks yields exactly 3 plain occurrences (weeks 1, 3, 4) plus the
override emitted once as its own event, and no second occurrence for the
overridden slot. -/
theorem c5_recurrence_exception_suppression :
    (∀ (normalize : ICalTime → Int) (endOf : ICalTime → ICalTime)
        (exTimes : List ICalTime) (props : PushProps) (rs : Option Int)
        (gen : List ICalTime), gen.length ≤ MAX_ITERATIONS →
      expandLoop normalize endOf exTimes props rs none gen 0
        = (gen.filter (fun t => !isException exTimes t)).foldr
            (fun t acc =>
              (pushEvent (normalize t) (normalize (endOf t)) t.isDate props rs none).toList
                ++ acc) []) ∧
    (parseICalEvents nrmUnixMs endOfHour [weeklyMaster, week2Override] none none true).map
        (fun e => (e.id, e.startDate))
      = [("series1-0", 0), ("series1-1209600000", 1209600000),
         ("series1-1814400000", 1814400000), ("series1-604800000", 612000000)] ∧
    ((parseICalEvents nrmUnixMs endOfHour [weeklyMaster, week2Override] none none true).filter
        (fun e => e.id = "series1-604800000")).length = 1 ∧
    ((parseICalEvents nrmUnixMs endOfHour [weeklyMaster, week2Override] none none true).filter
        (fun e => e.startDate = 604800000)).length = 0 := by
  refine ⟨?_, by decide, by decide, by decide⟩
  intro normalize endOf exTimes props rs gen hlen
  exact expandLoop_eq_filter gen 0 (by omega)

theorem c5_recurrence_exception_suppression_witness :
    ([icalTimeOfUnix 0, icalTimeOfUnix weekSec].length ≤ MAX_ITERATIONS) ∧
    expandLoop nrmUnixMs endOfHour [icalTimeOfUnix weekSec] simpleProps none none
        [icalTimeOfUnix 0, icalTimeOfUnix weekSec] 0
      = ([icalTimeOfUnix 0, icalTimeOfUnix weekSec].filter
          (fun t => !isException [icalTimeOfUnix weekSec] t)).foldr
          (fun t acc =>
            (pushEvent (nrmUnixMs t) (nrmUnixMs (endOfHour t)) t.isDate simpleProps
              none none).toList ++ acc) [] :=
  ⟨by decide,
   c5_recurrence_exception_suppression.1 nrmUnixMs endOfHour [icalTimeOfUnix weekSec]
     simpleProps none [icalTimeOfUnix 0, icalTimeOfUnix weekSec] (by decide)⟩

/-- C1 counterexample: a non-recurring master event whose `UID` property is
present but empty gets stable id `"-5000"` (the uid/start fallback of
`pushEvent`'s `props.id || ...`), not its uid `""`. -/
theorem c1_stable_id_counterexample :
    (processParsedEvent nrmUnixMs endOfHour [] emptyUidMaster none none true).map
        (fun e => (e.id, e.uid)) = [("-5000", "")] ∧
    ∀ e ∈ processParsedEvent nrmUnixMs endOfHour [] emptyUidMaster none none true,
      e.id ≠ e.uid := by
  exact ⟨by decide, by decide⟩

/-- C1 (amended): a plain occurrence generated from a recurring rule gets
stable id `uid ++ "-" ++ <epoch-ms of its resolved start>`; an override
emitted standalone gets `uid ++ "-" ++ <epoch-ms of its RECURRENCE-ID>`;
a non-recurring master event gets the uid alone whenever the extracted uid
is non-empty (an empty uid falls back to `uid ++ "-" ++ <start-ms>`).
Repeated expansion is a pure function of the same inputs, so the produced
ids are reproducible. -/
theorem c1_stable_id_generation :
    ∀ (normalize : ICalTime → Int) (endOf : ICalTime → ICalTime)
      (exTimes : List ICalTime) (ev : VEventData) (rs re : Option Int)
      (inc : Bool),
    (ev.isRecurring = true →
      ∀ e ∈ processParsedEvent normalize endOf exTimes ev rs re inc,
        e.id = e.uid ++ "-" ++ toString e.startDate) ∧
    (ev.isRecurring = false → ∀ rid, ev.recurrenceId = some rid →
      ∀ e ∈ processParsedEvent normalize endOf exTimes ev rs re inc,
        e.id = e.uid ++ "-" ++ toString rid.toJSDateMs) ∧
    (ev.isRecurring = false → ev.recurrenceId = none →
      ∀ e ∈ processParsedEvent normalize endOf exTimes ev rs re inc,
        e.id = if e.uid = "" then e.uid ++ "-" ++ toString e.startDate else e.uid) := by
  intro normalize endOf exTimes ev rs re inc
  refine ⟨?_, ?_, ?_⟩
  · intro hr e he
    unfold processParsedEvent at he
    by_cases hc : (evIsCancelled ev && !inc) = true
    · simp [hc] at he
    · rw [Bool.not_eq_true] at hc
      simp only [hc, Bool.false_eq_true, if_false, hr, if_true] at he
      obtain ⟨t, _, _, hp⟩ := mem_expandLoop he
      obtain ⟨hid, huid, hstart, _⟩ := pushEvent_some hp
      rw [hid, huid, hstart]
      rfl
  · intro hr rid hrid e he
    unfold processParsedEvent at he
    by_cases hc : (evIsCancelled ev && !inc) = true
    · simp [hc] at he
    · rw [Bool.not_eq_true] at hc
      simp only [hc, Bool.false_eq_true, if_false, hr, Option.mem_toList,
        Option.mem_def] at he
      obtain ⟨hid, huid, hstart, _⟩ := pushEvent_some he
      rw [hid, huid]
      show jsStrOr (some (evStableId ev)) _ = _
      rw [evStableId, hrid]
      exact jsStrOr_some_of_ne (string_append_dash_ne_empty _ _)
  · intro hr hrid e he
    unfold processParsedEvent at he
    by_cases hc : (evIsCancelled ev && !inc) = true
    · simp [hc] at he
    · rw [Bool.not_eq_true] at hc
      simp only [hc, Bool.false_eq_true, if_false, hr, Option.mem_toList,
        Option.mem_def] at he
      obtain ⟨hid, huid, hstart, _⟩ := pushEvent_some he
      have hsid : evStableId ev = extractedUid ev := by
        unfold evStableId
        rw [hrid]
      rw [hid, huid, hstart]
      by_cases hu : extractedUid ev = ""
      · simp [jsStrOr, hsid, evProps, hu]
      · simp [jsStrOr, hsid, evProps, hu]

theorem c1_stable_id_generation_witness :
    weeklyMaster.isRecurring = true ∧
    ∀ e ∈ processParsedEvent nrmUnixMs endOfHour [] weeklyMaster none none true,
      e.id = e.uid ++ "-" ++ toString e.startDate :=
  ⟨rfl, (c1_stable_id_generation nrmUnixMs endOfHour [] weeklyMaster none none true).1 rfl⟩

/-- C9: a VEVENT lacking a `UID` property is assigned the decimal string of
its start time in unix seconds as uid; every occurrence emitted for such an
event carries that non-empty uid and a non-empty stable id; and two UID-less
events sharing the same start receive the same uid. -/
theorem c9_uid_fallback :
    ∀ (normalize : ICalTime → Int) (endOf : ICalTime → ICalTime)
      (exTimes : List ICalTime) (ev : VEventData) (rs re : Option Int)
      (inc : Bool),
      ev.uidProp = none →
      extractedUid ev = toString ev.startDate.unixTime ∧
      (∀ e ∈ processParsedEvent normalize endOf exTimes ev rs re inc,
        e.uid = toString ev.startDate.unixTime ∧ e.uid ≠ "" ∧ e.id ≠ "") ∧
      (∀ (ev2 : VEventData), ev2.uidProp = none →
        ev2.startDate.unixTime = ev.startDate.unixTime →
        ∀ (normalize2 : ICalTime → Int) (endOf2 : ICalTime → ICalTime)
          (exTimes2 : List ICalTime) (rs2 re2 : Option Int) (inc2 : Bool),
        ∀ e ∈ processParsedEvent normalize endOf exTimes ev rs re inc,
        ∀ e2 ∈ processParsedEvent normalize2 endOf2 exTimes2 ev2 rs2 re2 inc2,
          e.uid = e2.uid) := by
  intro normalize endOf exTimes ev rs re inc hnone
  have hext : extractedUid ev = toString ev.startDate.unixTime := by
    unfold extractedUid
    rw [hnone]
    rfl
  refine ⟨hext, ?_, ?_⟩
  · intro e he
    obtain ⟨huid, hid⟩ := mem_processParsedEvent_uid_id he
    refine ⟨by rw [huid, hext], ?_, hid⟩
    rw [huid, hext]
    exact int_toString_ne_empty _
  · intro ev2 hnone2 hstart normalize2 endOf2 exTimes2 rs2 re2 inc2 e he e2 he2
    obtain ⟨huid, _⟩ := mem_processParsedEvent_uid_id he
    obtain ⟨huid2, _⟩ := mem_processParsedEvent_uid_id he2
    have hext2 : extractedUid ev2 = toString ev2.startDate.unixTime := by
      unfold extractedUid
      rw [hnone2]
      rfl
    rw [huid, huid2, hext, hext2, hstart]

theorem c9_uid_fallback_witness :
    noUidEvent.uidProp = none ∧
    ∀ e ∈ processParsedEvent nrmUnixMs endOfHour [] noUidEvent none none true,
      e.uid = toString noUidEvent.startDate.unixTime ∧ e.uid ≠ "" ∧ e.id ≠ "" :=
  ⟨rfl, (c9_uid_fallback nrmUnixMs endOfHour [] noUidEvent none none true rfl).2.1⟩

/-- C3: a cancelled occurrence matched to a local note — whether by exact
stable-id match or by the fuzzy tier, i.e. for any result of `findMatch` —
yields the delete action deferred to the configured delete policy, and
never the update path, regardless of the note's prior state. -/
theorem c3_cancelled_always_deletes :
    ∀ (cfg : AutoCreateConfig) (event : ExternalCalendarEvent)
      (index : List VaultNote) (hidden : List String) (m : VaultNote),
      findMatch event index = some m → event.isCancelled = true →
      processEventDecision cfg event index hidden =
        .deletedNote m.file (deleteOrArchive cfg.syncOnEventDelete
          cfg.archiveFolder cfg.canceledStatusValue) ∧
      ∀ f, processEventDecision cfg event index hidden ≠ .updatedNote f := by
  intro cfg event index hidden m hm hcanc
  have h1 : processEventDecision cfg event index hidden =
      .deletedNote m.file (deleteOrArchive cfg.syncOnEventDelete
        cfg.archiveFolder cfg.canceledStatusValue) := by
    unfold processEventDecision
    rw [hm, hcanc]
    simp
  refine ⟨h1, ?_⟩
  intro f hf
  rw [h1] at hf
  exact EventOutcome.noConfusion hf

theorem c3_cancelled_always_deletes_witness :
    findMatch evWCancelled [matchNote] = some matchNote ∧
    evWCancelled.isCancelled = true ∧
    processEventDecision cfgW evWCancelled [matchNote] [] =
      .deletedNote "m.md" (.archiveMove "Archive") :=
  ⟨by decide, rfl,
   (c3_cancelled_always_deletes cfgW evWCancelled [matchNote] [] matchNote
     (by decide) rfl).1⟩

/-- C4: after the per-occurrence pass, every indexed note whose path no
occurrence claimed and whose recorded start lies inside the sync window
(7 days before to 14 days after the cycle start) receives the delete action
(per the configured policy); every such unclaimed note whose recorded start
lies outside the window is not selected by the orphan pass. -/
theorem c4_orphan_windowing :
    ∀ (cfg : AutoCreateConfig) (index : List VaultNote)
      (matchedFiles : List String) (now : Int) (n : VaultNote),
      n ∈ index →
      (matchedFiles.contains n.file = false →
        startsInWindow n.startDate (syncWindowStart now) (syncWindowEnd now) = true →
        (n.file, deleteOrArchive cfg.syncOnEventDelete cfg.archiveFolder
          cfg.canceledStatusValue)
          ∈ orphanPass cfg index matchedFiles (syncWindowStart now)
              (syncWindowEnd now)) ∧
      (∀ d, n.startDate = some d →
        (d < syncWindowStart now ∨ syncWindowEnd now < d) →
        n ∉ orphanDeletes index matchedFiles (syncWindowStart now)
              (syncWindowEnd now)) := by
  intro cfg index matched now n hmem
  constructor
  · intro hnc hwin
    have hn : n ∈ orphanDeletes index matched (syncWindowStart now)
        (syncWindowEnd now) := by
      unfold orphanDeletes
      refine List.mem_filter.mpr ⟨hmem, ?_⟩
      rw [Bool.and_eq_true, Bool.not_eq_true']
      exact ⟨hnc, hwin⟩
    unfold orphanPass
    exact List.mem_map.mpr ⟨n, hn, rfl⟩
  · intro d hd hout hcontra
    have hpred := (List.mem_filter.mp hcontra).2
    rw [Bool.and_eq_true] at hpred
    have hwin := hpred.2
    unfold startsInWindow at hwin
    rw [hd, Bool.and_eq_true, decide_eq_true_eq, decide_eq_true_eq] at hwin
    rcases hout with h | h <;> omega

theorem c4_orphan_windowing_witness :
    matchNote ∈ [matchNote] ∧
    ([] : List String).contains matchNote.file = false ∧
    startsInWindow matchNote.startDate (syncWindowStart 0) (syncWindowEnd 0) = true ∧
    ("m.md", DeleteEffect.archiveMove "Archive")
      ∈ orphanPass cfgW [matchNote] [] (syncWindowStart 0) (syncWindowEnd 0) :=
  ⟨by decide, rfl, by decide,
   (c4_orphan_windowing cfgW [matchNote] [] 0 matchNote (by decide)).1
     rfl (by decide)⟩

theorem find_exact_none {event : ExternalCalendarEvent} {index : List VaultNote}
    (h : ∀ n ∈ index, n.googleEventId ≠ event.id) :
    index.find? (fun n => n.googleEventId = event.id) = none := by
  rw [List.find?_eq_none]
  intro x hx
  simp [h x hx]

/-- C2 counterexample: occurrence `u-100` (offset 100) has no exact match;
candidate `u-60100` is within the 65-minute tolerance, while candidate
`u-2678400100` (31 days away) only matches on UTC hour/minute/day-of-month;
the code still selects `u-2678400100` because it is first in index order —
the tolerance tier is not given priority across candidates, contradicting
the claimed "falling back ... if no candidate is within tolerance". -/
theorem c2_fuzzy_match_counterexample :
    findMatch offset100Event twoCandidateIndex = some monthAwayNote ∧
    withinTolerance 100 monthAwayNote = false ∧
    componentMatch 100 monthAwayNote = true ∧
    withinTolerance 100 minuteAwayNote = true ∧
    minuteAwayNote ∈ twoCandidateIndex.filter (fun n => n.uid = offset100Event.uid) ∧
    parseIntJS (substringFrom offset100Event.id
      (lastIndexOfChar offset100Event.id '-' + 1)) = some 100 ∧
    (∀ n ∈ twoCandidateIndex, n.googleEventId ≠ offset100Event.id) := by
  decide

/-- C2 (amended): with no exact-id match, a recurring instance (stable id
contains `-` and differs from the series UID, with a numeric offset suffix)
is matched to the first series-UID-sharing candidate in index order that
satisfies either tier — offset within 65 minutes of absolute time, or equal
UTC hour/minute/day-of-month — the two tiers being tested together per
candidate rather than tolerance-first across all candidates; if no
candidate satisfies either tier there is no match; a single (non-recurring)
event is matched exactly when precisely one candidate shares its series
UID, and two or more candidates yield no match. -/
theorem c2_fuzzy_match_amended :
    (∀ (event : ExternalCalendarEvent) (index : List VaultNote) (ts : Int),
      (∀ n ∈ index, n.googleEventId ≠ event.id) →
      strContainsChar event.id '-' = true →
      event.id ≠ event.uid →
      parseIntJS (substringFrom event.id (lastIndexOfChar event.id '-' + 1))
        = some ts →
      ((∀ m, findMatch event index = some m →
          m ∈ index ∧ m.uid = event.uid ∧
          (withinTolerance ts m = true ∨ componentMatch ts m = true) ∧
          ∃ l1 l2, index.filter (fun n => n.uid = event.uid) = l1 ++ m :: l2 ∧
            ∀ n ∈ l1, fuzzyNoteMatch ts n = false) ∧
        (findMatch event index = none →
          ∀ n ∈ index, n.uid = event.uid → fuzzyNoteMatch ts n = false))) ∧
    (∀ (event : ExternalCalendarEvent) (index : List VaultNote),
      (∀ n ∈ index, n.googleEventId ≠ event.id) →
      (strContainsChar event.id '-' = false ∨ event.id = event.uid) →
      ((∀ n, index.filter (fun n => n.uid = event.uid) = [n] →
          findMatch event index = some n) ∧
        (2 ≤ (index.filter (fun n => n.uid = event.uid)).length →
          findMatch event index = none))) := by
  constructor
  · intro event index ts hno hdash hne hts
    have hrec : (strContainsChar event.id '-' && decide (event.id ≠ event.uid))
        = true := by
      rw [hdash]
      simp [hne]
    by_cases hlen : (index.filter (fun n => n.uid = event.uid)).length > 0
    · have hfm : findMatch event index
          = (index.filter (fun n => n.uid = event.uid)).find?
              (fun n => fuzzyNoteMatch ts n) := by
        unfold findMatch
        rw [find_exact_none hno]
        simp only [if_pos hlen, hrec, if_true, hts]
      constructor
      · intro m hm
        rw [hfm] at hm
        obtain ⟨hp, l1, l2, hsplit, hfirst⟩ := List.find?_eq_some.mp hm
        have hmem : m ∈ index.filter (fun n => n.uid = event.uid) := by
          rw [hsplit]
          exact List.mem_append_right _ (List.mem_cons_self _ _)
        obtain ⟨hmi, hmu⟩ := List.mem_filter.mp hmem
        refine ⟨hmi, by simpa using hmu, ?_, l1, l2, hsplit, ?_⟩
        · have := hp
          unfold fuzzyNoteMatch at this
          rw [Bool.or_eq_true] at this
          exact this
        · intro n hn
          have := hfirst n hn
          rwa [Bool.not_eq_true'] at this
      · intro hnone n hni hnu
        rw [hfm] at hnone
        have hmem : n ∈ index.filter (fun n => n.uid = event.uid) :=
          List.mem_filter.mpr ⟨hni, by simp [hnu]⟩
        have := List.find?_eq_none.mp hnone n hmem
        rwa [Bool.not_eq_true] at this
    · have hempty : index.filter (fun n => n.uid = event.uid) = [] := by
        rcases h : index.filter (fun n => n.uid = event.uid) with _ | ⟨a, l⟩
        · exact h
        · rw [h] at hlen
          simp at hlen
      have hfm : findMatch event index = none := by
        unfold findMatch
        rw [find_exact_none hno]
        simp only [if_neg hlen]
      constructor
      · intro m hm
        rw [hfm] at hm
        exact Option.noConfusion hm
      · intro _ n hni hnu
        have hmem : n ∈ index.filter (fun n => n.uid = event.uid) :=
          List.mem_filter.mpr ⟨hni, by simp [hnu]⟩
        rw [hempty] at hmem
        exact absurd hmem (List.not_mem_nil n)
  · intro event index hno hsingle
    have hrec : (strContainsChar event.id '-' && decide (event.id ≠ event.uid))
        = false := by
      rcases hsingle with h | h
      · rw [h]
        rfl
      · simp [h]
    constructor
    · intro n hn
      unfold findMatch
      rw [find_exact_none hno]
      have hlen : (index.filter (fun n => n.uid = event.uid)).length > 0 := by
        rw [hn]
        simp
      simp only [if_pos hlen, hrec, Bool.false_eq_true, if_false, hn]
      rfl
    · intro h2
      unfold findMatch
      rw [find_exact_none hno]
      have hlen : (index.filter (fun n => n.uid = event.uid)).length > 0 := by
        omega
      have hne1 : ¬ (index.filter (fun n => n.uid = event.uid)).length = 1 := by
        omega
      simp only [if_pos hlen, hrec, Bool.false_eq_true, if_false, if_neg hne1]

theorem c2_fuzzy_match_amended_witness :
    (∀ n ∈ twoCandidateIndex, n.googleEventId ≠ offset100Event.id) ∧
    strContainsChar offset100Event.id '-' = true ∧
    offset100Event.id ≠ offset100Event.uid ∧
    parseIntJS (substringFrom offset100Event.id
      (lastIndexOfChar offset100Event.id '-' + 1)) = some 100 ∧
    (findMatch offset100Event twoCandidateIndex = none →
      ∀ n ∈ twoCandidateIndex, n.uid = offset100Event.uid →
        fuzzyNoteMatch 100 n = false) :=
  ⟨by decide, by decide, by decide, by decide,
   (c2_fuzzy_match_amended.1 offset100Event twoCandidateIndex 100
     (by decide) (by decide) (by decide) (by decide)).2⟩

theorem fmGet_cons_eq {p : String × FMValue} {rest : FrontMatter} {k : String}
    (h : p.1 = k) : fmGet (p :: rest) k = some p.2 := by
  unfold fmGet
  rw [List.find?_cons_of_pos _ (by simp [h])]

theorem fmGet_cons_ne {p : String × FMValue} {rest : FrontMatter} {k : String}
    (h : ¬ p.1 = k) : fmGet (p :: rest) k = fmGet rest k := by
  unfold fmGet
  rw [List.find?_cons_of_neg _ (by simp [h])]

theorem fmGet_fmSet_self (fm : FrontMatter) (k : String) (v : FMValue) :
    fmGet (fmSet fm k v) k = some v := by
  induction fm with
  | nil => exact fmGet_cons_eq rfl
  | cons p rest ih =>
    by_cases hp : p.1 = k
    · show fmGet (if p.1 = k then (p.1, v) :: rest else p :: fmSet rest k v) k
        = some v
      rw [if_pos hp]
      exact fmGet_cons_eq hp
    · show fmGet (if p.1 = k then (p.1, v) :: rest else p :: fmSet rest k v) k
        = some v
      rw [if_neg hp, fmGet_cons_ne hp]
      exact ih

theorem fmGet_fmSet_other {k' k : String} (h : k' ≠ k) (fm : FrontMatter)
    (v : FMValue) : fmGet (fmSet fm k v) k' = fmGet fm k' := by
  induction fm with
  | nil =>
    show fmGet [(k, v)] k' = fmGet [] k'
    rw [fmGet_cons_ne (fun hc => h hc.symm)]
  | cons p rest ih =>
    by_cases hp : p.1 = k
    · show fmGet (if p.1 = k then (p.1, v) :: rest else p :: fmSet rest k v) k'
        = fmGet (p :: rest) k'
      rw [if_pos hp]
      have hne : ¬ p.1 = k' := fun hc => h (by rw [← hc, hp])
      rw [show fmGet ((p.1, v) :: rest) k' = fmGet rest k' from fmGet_cons_ne hne,
        fmGet_cons_ne hne]
    · show fmGet (if p.1 = k then (p.1, v) :: rest else p :: fmSet rest k v) k'
        = fmGet (p :: rest) k'
      rw [if_neg hp]
      by_cases hq : p.1 = k'
      · rw [fmGet_cons_eq hq, fmGet_cons_eq hq]
      · rw [fmGet_cons_ne hq, fmGet_cons_ne hq]
        exact ih

theorem fmGet_fmSetIfNe_self (fm : FrontMatter) (k : String) (v : FMValue) :
    fmGet (fmSetIfNe fm k v) k = some v := by
  unfold fmSetIfNe
  by_cases h : fmGet fm k = some v
  · rw [if_pos h]
    exact h
  · rw [if_neg h]
    exact fmGet_fmSet_self fm k v

theorem fmGet_fmSetIfNe_other {k' k : String} (h : k' ≠ k) (fm : FrontMatter)
    (v : FMValue) : fmGet (fmSetIfNe fm k v) k' = fmGet fm k' := by
  unfold fmSetIfNe
  by_cases hc : fmGet fm k = some v
  · rw [if_pos hc]
  · rw [if_neg hc]
    exact fmGet_fmSet_other h fm v

/-- C6: for a matched, non-cancelled occurrence, the frontmatter update
writes only the remote-id field (`googleEventId`), the configured start
field (and `scheduled` when already present), the configured end field
(end instant or duration-in-minutes per the duration setting), and `title`;
every other frontmatter field is unchanged. -/
theorem c6_update_frame :
    ∀ (fmtDT : Int → String) (cfg : AutoCreateConfig)
      (event : ExternalCalendarEvent) (fm : FrontMatter),
    (∀ k, k ≠ "googleEventId" → k ≠ cfg.startProperty → k ≠ "scheduled" →
      k ≠ cfg.endProperty → k ≠ "title" →
      fmGet (updateFrontmatter fmtDT cfg event fm) k = fmGet fm k) ∧
    ("googleEventId" ≠ cfg.startProperty → "googleEventId" ≠ cfg.endProperty →
      cfg.startProperty ≠ "scheduled" → cfg.startProperty ≠ cfg.endProperty →
      cfg.startProperty ≠ "title" → "scheduled" ≠ cfg.endProperty →
      cfg.endProperty ≠ "title" →
      fmGet (updateFrontmatter fmtDT cfg event fm) "googleEventId"
          = some (.str event.id) ∧
      fmGet (updateFrontmatter fmtDT cfg event fm) cfg.startProperty
          = some (.str (fmtDT event.startDate)) ∧
      ((fmGet fm "scheduled").isSome →
        fmGet (updateFrontmatter fmtDT cfg event fm) "scheduled"
          = some (.str (fmtDT event.startDate))) ∧
      (fmGet fm "scheduled" = none →
        fmGet (updateFrontmatter fmtDT cfg event fm) "scheduled" = none) ∧
      fmGet (updateFrontmatter fmtDT cfg event fm) cfg.endProperty
          = some (if cfg.useEndDuration then
              .num (jsRoundDiv (event.endDate - event.startDate) 60000)
            else .str (fmtDT event.endDate)) ∧
      fmGet (updateFrontmatter fmtDT cfg event fm) "title"
          = some (.str event.title)) := by
  intro fmtDT cfg event fm
  constructor
  · intro k h1 h2 h3 h4 h5
    unfold updateFrontmatter
    rw [fmGet_fmSetIfNe_other h5]
    by_cases hdur : !cfg.useEndDuration
    · rw [if_pos hdur, fmGet_fmSetIfNe_other h4]
      by_cases hsch : (fmGet (fmSetIfNe (fmSetIfNe fm "googleEventId"
          (.str event.id)) cfg.startProperty (.str (fmtDT event.startDate)))
          "scheduled").isSome
      · rw [if_pos hsch, fmGet_fmSetIfNe_other h3, fmGet_fmSetIfNe_other h2,
          fmGet_fmSetIfNe_other h1]
      · rw [if_neg hsch, fmGet_fmSetIfNe_other h2, fmGet_fmSetIfNe_other h1]
    · rw [if_neg hdur, fmGet_fmSetIfNe_other h4]
      by_cases hsch : (fmGet (fmSetIfNe (fmSetIfNe fm "googleEventId"
          (.str event.id)) cfg.startProperty (.str (fmtDT event.startDate)))
          "scheduled").isSome
      · rw [if_pos hsch, fmGet_fmSetIfNe_other h3, fmGet_fmSetIfNe_other h2,
          fmGet_fmSetIfNe_other h1]
      · rw [if_neg hsch, fmGet_fmSetIfNe_other h2, fmGet_fmSetIfNe_other h1]
  · intro hGS hGE hSSch hSE hST hSchE hET
    have hGSch : ("googleEventId" : String) ≠ "scheduled" := by decide
    have hGT : ("googleEventId" : String) ≠ "title" := by decide
    have hSchT : ("scheduled" : String) ≠ "title" := by decide
    have hsched2 : fmGet (fmSetIfNe (fmSetIfNe fm "googleEventId"
        (.str event.id)) cfg.startProperty (.str (fmtDT event.startDate)))
        "scheduled" = fmGet fm "scheduled" := by
      rw [fmGet_fmSetIfNe_other (fun hc => hSSch hc.symm),
        fmGet_fmSetIfNe_other (fun hc => hGSch hc.symm)]
    refine ⟨?_, ?_, ?_, ?_, ?_, ?_⟩
    · unfold updateFrontmatter
      rw [fmGet_fmSetIfNe_other hGT]
      by_cases hdur : !cfg.useEndDuration
      · rw [if_pos hdur, fmGet_fmSetIfNe_other hGE]
        by_cases hsch : (fmGet (fmSetIfNe (fmSetIfNe fm "googleEventId"
            (.str event.id)) cfg.startProperty (.str (fmtDT event.startDate)))
            "scheduled").isSome
        · rw [if_pos hsch, fmGet_fmSetIfNe_other hGSch,
            fmGet_fmSetIfNe_other hGS, fmGet_fmSetIfNe_self]
        · rw [if_neg hsch, fmGet_fmSetIfNe_other hGS, fmGet_fmSetIfNe_self]
      · rw [if_neg hdur, fmGet_fmSetIfNe_other hGE]
        by_cases hsch : (fmGet (fmSetIfNe (fmSetIfNe fm "googleEventId"
            (.str event.id)) cfg.startProperty (.str (fmtDT event.startDate)))
            "scheduled").isSome
        · rw [if_pos hsch, fmGet_fmSetIfNe_other hGSch,
            fmGet_fmSetIfNe_other hGS, fmGet_fmSetIfNe_self]
        · rw [if_neg hsch, fmGet_fmSetIfNe_other hGS, fmGet_fmSetIfNe_self]
    · unfold updateFrontmatter
      rw [fmGet_fmSetIfNe_other hST]
      by_cases hdur : !cfg.useEndDuration
      · rw [if_pos hdur, fmGet_fmSetIfNe_other hSE]
        by_cases hsch : (fmGet (fmSetIfNe (fmSetIfNe fm "googleEventId"
            (.str event.id)) cfg.startProperty (.str (fmtDT event.startDate)))
            "scheduled").isSome
        · rw [if_pos hsch, fmGet_fmSetIfNe_other hSSch, fmGet_fmSetIfNe_self]
        · rw [if_neg hsch, fmGet_fmSetIfNe_self]
      · rw [if_neg hdur, fmGet_fmSetIfNe_other hSE]
        by_cases hsch : (fmGet (fmSetIfNe (fmSetIfNe fm "googleEventId"
            (.str event.id)) cfg.startProperty (.str (fmtDT event.startDate)))
            "scheduled").isSome
        · rw [if_pos hsch, fmGet_fmSetIfNe_other hSSch, fmGet_fmSetIfNe_self]
        · rw [if_neg hsch, fmGet_fmSetIfNe_self]
    · intro hpres
      unfold updateFrontmatter
      rw [fmGet_fmSetIfNe_other hSchT]
      have hsch : (fmGet (fmSetIfNe (fmSetIfNe fm "googleEventId"
          (.str event.id)) cfg.startProperty (.str (fmtDT event.startDate)))
          "scheduled").isSome := by
        rw [hsched2]
        exact hpres
      by_cases hdur : !cfg.useEndDuration
      · rw [if_pos hdur, fmGet_fmSetIfNe_other hSchE, if_pos hsch,
          fmGet_fmSetIfNe_self]
      · rw [if_neg hdur, fmGet_fmSetIfNe_other hSchE, if_pos hsch,
          fmGet_fmSetIfNe_self]
    · intro habs
      unfold updateFrontmatter
      rw [fmGet_fmSetIfNe_other hSchT]
      have hsch : ¬ (fmGet (fmSetIfNe (fmSetIfNe fm "googleEventId"
          (.str event.id)) cfg.startProperty (.str (fmtDT event.startDate)))
          "scheduled").isSome := by
        rw [hsched2, habs]
        simp
      by_cases hdur : !cfg.useEndDuration
      · rw [if_pos hdur, fmGet_fmSetIfNe_other hSchE, if_neg hsch, hsched2]
        exact habs
      · rw [if_neg hdur, fmGet_fmSetIfNe_other hSchE, if_neg hsch, hsched2]
        exact habs
    · unfold updateFrontmatter
      rw [fmGet_fmSetIfNe_other hET]
      by_cases hdur : cfg.useEndDuration
      · rw [if_neg (by simp [hdur]), if_pos hdur, fmGet_fmSetIfNe_self]
      · rw [if_pos (by simp [hdur]), if_neg hdur, fmGet_fmSetIfNe_self]
    · unfold updateFrontmatter
      rw [fmGet_fmSetIfNe_self]

theorem c6_update_frame_witness :
    fmGet (updateFrontmatter fmtToString cfgW evW fmW) "foo"
        = fmGet fmW "foo" ∧
    fmGet (updateFrontmatter fmtToString cfgW evW fmW) "title"
        = some (.str evW.title) :=
  ⟨(c6_update_frame fmtToString cfgW evW fmW).1 "foo" (by decide) (by decide)
      (by decide) (by decide) (by decide),
   ((c6_update_frame fmtToString cfgW evW fmW).2 (by decide) (by decide)
      (by decide) (by decide) (by decide) (by decide) (by decide)).2.2.2.2.2⟩

/-- A dropped invocation stays dropped along every interleaving: no later
step can move it to any phase. -/
theorem dropped_stays {i : Nat} : ∀ {s t : SyncSystem}, SysReaches s t →
    s.tasks[i]? = some .dropped → t.tasks[i]? = some .dropped := by
  intro s t h
  induction h with
  | refl => exact fun h => h
  | tail hab hbc ih =>
    intro hs
    have hb := ih hs
    obtain ⟨j, hstep⟩ := hbc
    by_cases hij : j = i
    · subst hij
      cases hstep with
      | checkDrop h hflag => rw [h] at hb; simp at hb
      | checkPass h hflag => rw [h] at hb; simp at hb
      | acquire h => rw [h] at hb; simp at hb
      | toApply h => rw [h] at hb; simp at hb
      | finish h => rw [h] at hb; simp at hb
    · cases hstep with
      | checkDrop h hflag => simpa [List.getElem?_set_ne hij] using hb
      | checkPass h hflag => simpa [List.getElem?_set_ne hij] using hb
      | acquire h => simpa [List.getElem?_set_ne hij] using hb
      | toApply h => simpa [List.getElem?_set_ne hij] using hb
      | finish h => simpa [List.getElem?_set_ne hij] using hb

/-- C7 counterexample: the `isSyncing` flag is set only after the awaited
vault-idle wait, so two invocations can both pass the entry check before
either sets the flag; the interleaving below drives both cycles into their
Applying phase simultaneously — refuting "every invocation arriving while a
cycle is not Idle is dropped" and "the Applying phases of two cycles never
overlap". -/
theorem c7_sync_reentry_counterexample :
    SysReaches ⟨false, [.entry, .entry]⟩ ⟨true, [.applying, .applying]⟩ ∧
    ¬ (∀ s : SyncSystem, SysReaches ⟨false, [.entry, .entry]⟩ s →
        ¬ (s.tasks[0]? = some .applying ∧ s.tasks[1]? = some .applying)) := by
  have h1 : SysStep ⟨false, [.entry, .entry]⟩ ⟨false, [.vaultWait, .entry]⟩ :=
    ⟨0, .checkPass _ rfl rfl⟩
  have h2 : SysStep ⟨false, [.vaultWait, .entry]⟩ ⟨false, [.vaultWait, .vaultWait]⟩ :=
    ⟨1, .checkPass _ rfl rfl⟩
  have h3 : SysStep ⟨false, [.vaultWait, .vaultWait]⟩ ⟨true, [.running, .vaultWait]⟩ :=
    ⟨0, .acquire _ rfl⟩
  have h4 : SysStep ⟨true, [.running, .vaultWait]⟩ ⟨true, [.running, .running]⟩ :=
    ⟨1, .acquire _ rfl⟩
  have h5 : SysStep ⟨true, [.running, .running]⟩ ⟨true, [.applying, .running]⟩ :=
    ⟨0, .toApply _ rfl⟩
  have h6 : SysStep ⟨true, [.applying, .running]⟩ ⟨true, [.applying, .applying]⟩ :=
    ⟨1, .toApply _ rfl⟩
  have htrace : SysReaches ⟨false, [.entry, .entry]⟩ ⟨true, [.applying, .applying]⟩ :=
    Relation.ReflTransGen.head h1 (Relation.ReflTransGen.head h2
      (Relation.ReflTransGen.head h3 (Relation.ReflTransGen.head h4
        (Relation.ReflTransGen.head h5 (Relation.ReflTransGen.head h6
          Relation.ReflTransGen.refl)))))
  exact ⟨htrace, fun hall => hall _ htrace ⟨rfl, rfl⟩⟩

/-- C7 (amended): the mutual-exclusion flag is set only once the vault-idle
wait completes; every invocation whose entry check runs while the flag is
set is dropped immediately, keeps the flag set, and stays dropped in every
later state of any interleaving — it never performs a fetch, reconcile, or
apply phase.  (An invocation checking during another cycle's vault-idle
wait, before the flag is set, is not dropped, so two cycles can overlap.) -/
theorem c7_sync_flag_gating :
    ∀ (i : Nat) (s s' : SyncSystem),
      s.isSyncing = true → s.tasks[i]? = some .entry → SyncStep i s s' →
      s'.isSyncing = true ∧ s'.tasks[i]? = some .dropped ∧
      ∀ t, SysReaches s' t → t.tasks[i]? = some .dropped := by
  intro i s s' hflag hentry hstep
  cases hstep with
  | checkDrop h hf =>
    have hset : (s.tasks.set i TaskPC.dropped)[i]? = some .dropped := by
      rw [List.getElem?_set_self']
      rw [hentry]
      rfl
    exact ⟨hflag, hset, fun t ht => dropped_stays ht hset⟩
  | checkPass h hf => rw [hflag] at hf; exact Bool.noConfusion hf
  | acquire h => rw [hentry] at h; simp at h
  | toApply h => rw [hentry] at h; simp at h
  | finish h => rw [hentry] at h; simp at h

theorem c7_sync_flag_gating_witness :
    (⟨true, [.running, .entry]⟩ : SyncSystem).isSyncing = true ∧
    (⟨true, [.running, .entry]⟩ : SyncSystem).tasks[1]? = some .entry ∧
    ((⟨true, [.running, .entry]⟩ : SyncSystem).tasks.set 1 TaskPC.dropped)[1]?
      = some .dropped :=
  ⟨rfl, rfl,
   (c7_sync_flag_gating 1 ⟨true, [.running, .entry]⟩
     ⟨true, [.running, .dropped]⟩ rfl rfl
     (.checkDrop _ rfl rfl)).2.1⟩

theorem cacheGet_cons_eq {p : String × (List ExternalCalendarEvent × Int)}
    {rest : FetchCache} {k : String} (h : p.1 = k) :
    cacheGet (p :: rest) k = some p.2 := by
  unfold cacheGet
  rw [List.find?_cons_of_pos _ (by simp [h])]

theorem cacheGet_cons_ne {p : String × (List ExternalCalendarEvent × Int)}
    {rest : FetchCache} {k : String} (h : ¬ p.1 = k) :
    cacheGet (p :: rest) k = cacheGet rest k := by
  unfold cacheGet
  rw [List.find?_cons_of_neg _ (by simp [h])]

theorem cacheGet_cacheSet_self (c : FetchCache) (k : String)
    (v : List ExternalCalendarEvent × Int) :
    cacheGet (cacheSet c k v) k = some v := by
  induction c with
  | nil => exact cacheGet_cons_eq rfl
  | cons p rest ih =>
    by_cases hp : p.1 = k
    · show cacheGet (if p.1 = k then (p.1, v) :: rest else p :: cacheSet rest k v) k
        = some v
      rw [if_pos hp]
      exact cacheGet_cons_eq hp
    · show cacheGet (if p.1 = k then (p.1, v) :: rest else p :: cacheSet rest k v) k
        = some v
      rw [if_neg hp, cacheGet_cons_ne hp]
      exact ih

/-- A cache miss plus a failed request: empty result, cache untouched. -/
theorem fetchEvents_miss_fail {parse : String → List ExternalCalendarEvent}
    {now : Int} {cache : FetchCache} {url : String} {rs re : Option Int}
    {inc : Bool} {nu : String} (hnu : normalizeUrl (some url) = some nu)
    (hmiss : cacheMiss cache (getCacheKey nu rs re inc) now)
    {response : FetchResponse}
    (hfail : response = .err ∨ ∃ st txt, response = .ok st txt ∧ st ≠ 200) :
    fetchEvents parse response now cache url rs re inc = ([], cache) := by
  simp only [fetchEvents, hnu]
  unfold cacheMiss at hmiss
  rcases hget : cacheGet cache (getCacheKey nu rs re inc) with _ | c
  · simp only [hget]
    rcases hfail with h | ⟨st, txt, hr, hst⟩
    · rw [h]
    · rw [hr]
      simp only [if_pos hst]
  · rw [hget] at hmiss
    simp only [hget, if_neg (show ¬ now < c.2 by omega)]
    rcases hfail with h | ⟨st, txt, hr, hst⟩
    · rw [h]
    · rw [hr]
      simp only [if_pos hst]

/-- A cache miss plus a 200 response: parsed events tagged with the source
url are returned and stored under the key with a `CACHE_TTL` expiry. -/
theorem fetchEvents_miss_success {parse : String → List ExternalCalendarEvent}
    {text : String} {now : Int} {cache : FetchCache} {url : String}
    {rs re : Option Int} {inc : Bool} {nu : String}
    (hnu : normalizeUrl (some url) = some nu)
    (hmiss : cacheMiss cache (getCacheKey nu rs re inc) now) :
    fetchEvents parse (.ok 200 text) now cache url rs re inc
      = ((parse text).map (fun e => { e with sourceUrl := some nu }),
         cacheSet cache (getCacheKey nu rs re inc)
           ((parse text).map (fun e => { e with sourceUrl := some nu }),
            now + CACHE_TTL)) := by
  simp only [fetchEvents, hnu]
  unfold cacheMiss at hmiss
  rcases hget : cacheGet cache (getCacheKey nu rs re inc) with _ | c
  · simp only [hget]
    rw [if_neg (show ¬ (200 : Int) ≠ 200 by omega)]
  · rw [hget] at hmiss
    simp only [hget, if_neg (show ¬ now < c.2 by omega)]
    rw [if_neg (show ¬ (200 : Int) ≠ 200 by omega)]

/-- A valid cache hit: the stored events are returned, nothing touches the
network or the cache. -/
theorem fetchEvents_hit {parse : String → List ExternalCalendarEvent}
    {now : Int} {cache : FetchCache} {url : String} {rs re : Option Int}
    {inc : Bool} {nu : String} {evs : List ExternalCalendarEvent} {exp : Int}
    (hnu : normalizeUrl (some url) = some nu)
    (hhit : cacheGet cache (getCacheKey nu rs re inc) = some (evs, exp))
    (hnow : now < exp) (response : FetchResponse) :
    fetchEvents parse response now cache url rs re inc = (evs, cache) := by
  simp only [fetchEvents, hnu, hhit]
  rw [if_pos hnow]

/-- C8: a fetch that actually reaches the network (no valid cache entry)
and fails — thrown network error or non-2xx status — returns the empty
sequence and leaves the cache exactly as it was; a successful fetch stores
the parsed events under the key and returns them to any identical request
arriving within the 5-minute TTL without consulting the network again. -/
theorem c8_fetch_failure_and_ttl :
    (∀ (parse : String → List ExternalCalendarEvent) (response : FetchResponse)
        (now : Int) (cache : FetchCache) (url nu : String) (rs re : Option Int)
        (inc : Bool),
      normalizeUrl (some url) = some nu →
      cacheMiss cache (getCacheKey nu rs re inc) now →
      (response = .err ∨
        ∃ st txt, response = .ok st txt ∧ (st < 200 ∨ 300 ≤ st)) →
      fetchEvents parse response now cache url rs re inc = ([], cache)) ∧
    (∀ (parse : String → List ExternalCalendarEvent) (text : String)
        (now : Int) (cache : FetchCache) (url nu : String) (rs re : Option Int)
        (inc : Bool),
      normalizeUrl (some url) = some nu →
      cacheMiss cache (getCacheKey nu rs re inc) now →
      fetchEvents parse (.ok 200 text) now cache url rs re inc
        = ((parse text).map (fun e => { e with sourceUrl := some nu }),
            cacheSet cache (getCacheKey nu rs re inc)
              ((parse text).map (fun e => { e with sourceUrl := some nu }),
                now + CACHE_TTL)) ∧
      ∀ (response2 : FetchResponse) (now2 : Int), now2 < now + CACHE_TTL →
        fetchEvents parse response2 now2
            (cacheSet cache (getCacheKey nu rs re inc)
              ((parse text).map (fun e => { e with sourceUrl := some nu }),
                now + CACHE_TTL)) url rs re inc
          = ((parse text).map (fun e => { e with sourceUrl := some nu }),
              cacheSet cache (getCacheKey nu rs re inc)
                ((parse text).map (fun e => { e with sourceUrl := some nu }),
                  now + CACHE_TTL))) := by
  constructor
  · intro parse response now cache url nu rs re inc hnu hmiss hfail
    apply fetchEvents_miss_fail hnu hmiss
    rcases hfail with h | ⟨st, txt, hr, hst⟩
    · exact Or.inl h
    · exact Or.inr ⟨st, txt, hr, by omega⟩
  · intro parse text now cache url nu rs re inc hnu hmiss
    refine ⟨fetchEvents_miss_success hnu hmiss, ?_⟩
    intro response2 now2 hnow2
    exact fetchEvents_hit hnu (cacheGet_cacheSet_self cache _ _) hnow2 response2

theorem c8_fetch_failure_and_ttl_witness :
    normalizeUrl (some "https://x") = some "https://x" ∧
    cacheMiss [] (getCacheKey "https://x" none none false) 0 ∧
    fetchEvents oneEventParse .err 0 [] "https://x" none none false
      = ([], []) :=
  ⟨by decide, trivial,
   c8_fetch_failure_and_ttl.1 oneEventParse .err 0 [] "https://x" "https://x"
     none none false (by decide) trivial (Or.inl rfl)⟩

/-- C10: the cache key truncates both window bounds to their UTC calendar
dates, so two requests with the same normalized url and flag whose window
bounds fall on the same UTC days share a key; hence within the TTL the
second call — with a different time of day — returns the first call's
cached events without touching the network, and leaves the cache as the
first call left it. -/
theorem c10_cache_key_day_granularity :
    (∀ (s1 e1 s2 e2 : Int) (nu : String) (inc : Bool),
      Int.fdiv s1 86400000 = Int.fdiv s2 86400000 →
      Int.fdiv e1 86400000 = Int.fdiv e2 86400000 →
      getCacheKey nu (some s1) (some e1) inc
        = getCacheKey nu (some s2) (some e2) inc) ∧
    (∀ (parse : String → List ExternalCalendarEvent) (text : String)
        (now : Int) (cache : FetchCache) (url nu : String) (inc : Bool)
        (s1 e1 s2 e2 : Int) (response2 : FetchResponse) (now2 : Int),
      normalizeUrl (some url) = some nu →
      Int.fdiv s1 86400000 = Int.fdiv s2 86400000 →
      Int.fdiv e1 86400000 = Int.fdiv e2 86400000 →
      cacheMiss cache (getCacheKey nu (some s1) (some e1) inc) now →
      now2 < now + CACHE_TTL →
      fetchEvents parse response2 now2
          (fetchEvents parse (.ok 200 text) now cache url (some s1) (some e1)
            inc).2 url (some s2) (some e2) inc
        = ((fetchEvents parse (.ok 200 text) now cache url (some s1) (some e1)
              inc).1,
            (fetchEvents parse (.ok 200 text) now cache url (some s1) (some e1)
              inc).2)) := by
  have hkey : ∀ (s1 e1 s2 e2 : Int) (nu : String) (inc : Bool),
      Int.fdiv s1 86400000 = Int.fdiv s2 86400000 →
      Int.fdiv e1 86400000 = Int.fdiv e2 86400000 →
      getCacheKey nu (some s1) (some e1) inc
        = getCacheKey nu (some s2) (some e2) inc := by
    intro s1 e1 s2 e2 nu inc h1 h2
    simp only [getCacheKey, isoDatePart]
    rw [h1, h2]
  refine ⟨hkey, ?_⟩
  intro parse text now cache url nu inc s1 e1 s2 e2 response2 now2 hnu h1 h2
    hmiss hnow2
  rw [fetchEvents_miss_success hnu hmiss]
  exact fetchEvents_hit hnu
    (by rw [← hkey s1 e1 s2 e2 nu inc h1 h2]
        exact cacheGet_cacheSet_self cache _ _)
    hnow2 response2

theorem c10_cache_key_day_granularity_witness :
    Int.fdiv 1000 86400000 = Int.fdiv 2000 86400000 ∧
    getCacheKey "https://x" (some 1000) (some 432000003) false
      = getCacheKey "https://x" (some 2000) (some 432009999) false ∧
    fetchEvents oneEventParse .err 10
        (fetchEvents oneEventParse (.ok 200 "body") 0 [] "https://x"
          (some 1000) (some 432000003) false).2 "https://x"
        (some 2000) (some 432009999) false
      = ((fetchEvents oneEventParse (.ok 200 "body") 0 [] "https://x"
            (some 1000) (some 432000003) false).1,
          (fetchEvents oneEventParse (.ok 200 "body") 0 [] "https://x"
            (some 1000) (some 432000003) false).2) :=
  ⟨by decide,
   c10_cache_key_day_granularity.1 1000 432000003 2000 432009999 "https://x"
     false (by decide) (by decide),
   c10_cache_key_day_granularity.2 oneEventParse "body" 0 [] "https://x"
     "https://x" false 1000 432000003 2000 432009999 .err 10 (by decide)
     (by decide) (by decide) trivial (by decide)⟩

end TPS

